import Mathlib

/-!
Verification of the Erlang code-generation backend in src/gleam/src/erl.rs.

The translators (statement / expression / pattern emitters, identifier
mangling call sites, export generation) are embedded directly from
src/gleam/src/erl.rs.  The generic pretty-printing document algebra
(src/pretty.rs) and the AST type declarations (src/ast.rs, src/pattern.rs)
are part of the repository but are not present under src/, so they are
modelled from the specification (sections 3 and 6); likewise the external
heck crate's case conversions are modelled from section 4.5.

Rust Option-free panics (the unimplemented! arms) are embedded as Option
with none meaning the translation aborts.  Floats are carried as their
printed form (the translator only ever forwards their Display rendering).
-/

namespace Erl

/-- Rendering mode of the layout engine: a group is printed flat
(optional breaks collapse to their fallback text) or broken. -/
inductive Mode where
  | flat
  | broken
deriving DecidableEq, Repr

/-- Modelled from the spec: the document algebra of the layout engine
(src/pretty.rs, section 6): literal text, concatenation, mandatory line
break, optional break with a fallback string, fixed and
current-column indentation, and breaking groups. -/
inductive Document where
  | Nil
  | Text (s : String)
  | Cons (a b : Document)
  | Nest (j : Int) (d : Document)
  | NestCurrent (d : Document)
  | Break (broken unbroken : String)
  | Line
  | Group (d : Document)
deriving DecidableEq, Repr

namespace Document

/-- Concatenation, the append combinator of the layout engine. -/
def append (a b : Document) : Document := Document.Cons a b

/-- Indent a sub-document by a fixed number of columns. -/
def nest (d : Document) (j : Int) : Document := Document.Nest j d

/-- Indent a sub-document to the column current when it is reached. -/
def nestCurrent (d : Document) : Document := Document.NestCurrent d

/-- Mark a sub-document as a breaking group. -/
def group (d : Document) : Document := Document.Group d

/-- Surround a document with a literal prefix and suffix. -/
def surround (d : Document) (o c : Document) : Document :=
  (o.append d).append c

/-- Structural size of a document; drives the fuel of the renderer. -/
def size : Document → Nat
  | .Nil => 1
  | .Text _ => 1
  | .Cons a b => a.size + b.size + 1
  | .Nest _ d => d.size + 1
  | .NestCurrent d => d.size + 1
  | .Break _ _ => 1
  | .Line => 1
  | .Group d => d.size + 1

end Document

/-- The optional-break separator used between tuple elements and
function arguments: the given text when broken, the text plus a space
when flat. -/
def delim (s : String) : Document := Document.Break s (s ++ " ")

/-- An optional break rendering its first string (plus newline and
indentation) when broken and its second when flat. -/
def break_ (broken unbroken : String) : Document := Document.Break broken unbroken

/-- The empty document. -/
def nilDoc : Document := Document.Nil

/-- Concatenation of a vector of documents into one document. -/
def docConcat : List Document → Document
  | [] => Document.Nil
  | d :: ds => d.append (docConcat ds)

/-- Total size of a work list of (indent, mode, document) triples. -/
def docsSize : List (Int × Mode × Document) → Nat
  | [] => 0
  | (_, _, d) :: rest => docsSize rest + d.size

/-- A run of spaces used for indentation after a line break. -/
def spaces (n : Nat) : String := String.mk (List.replicate n ' ')

/-- Modelled from the spec: the fitting test of the layout engine —
whether a work list printed flat fits in the remaining width.  The fuel
argument equals the docsSize of the work list at every call. -/
def fitsGo : Nat → Int → List (Int × Mode × Document) → Bool
  | _, w, [] => decide (0 ≤ w)
  | 0, _, _ :: _ => true
  | fuel + 1, w, (i, m, d) :: rest =>
    if w < 0 then false
    else
      match d with
      | .Nil => fitsGo fuel w rest
      | .Text s => fitsGo fuel (w - s.length) rest
      | .Cons a b => fitsGo fuel w ((i, m, a) :: (i, m, b) :: rest)
      | .Nest j x => fitsGo fuel w ((i + j, m, x) :: rest)
      | .NestCurrent x => fitsGo fuel w ((i, m, x) :: rest)
      | .Break _ u =>
        match m with
        | .flat => fitsGo fuel (w - u.length) rest
        | .broken => true
      | .Line => true
      | .Group x => fitsGo fuel w ((i, Mode.flat, x) :: rest)

/-- Whether a work list fits in the given width. -/
def fits (w : Int) (l : List (Int × Mode × Document)) : Bool :=
  fitsGo (docsSize l) w l

/-- Modelled from the spec: the rendering loop of the layout engine.
Returns the rendered text together with the final column.  Groups are
resolved outward-in: a group prints flat exactly when it alone fits in
the remaining width.  The fuel argument equals the docsSize of the work
list at every call. -/
def fmtGo (w : Int) : Nat → Int → List (Int × Mode × Document) → String × Int
  | _, k, [] => ("", k)
  | 0, k, _ :: _ => ("", k)
  | fuel + 1, k, (i, m, d) :: rest =>
    match d with
    | .Nil => fmtGo w fuel k rest
    | .Text s =>
      let p := fmtGo w fuel (k + s.length) rest
      (s ++ p.1, p.2)
    | .Cons a b => fmtGo w fuel k ((i, m, a) :: (i, m, b) :: rest)
    | .Nest j x => fmtGo w fuel k ((i + j, m, x) :: rest)
    | .NestCurrent x => fmtGo w fuel k ((k, m, x) :: rest)
    | .Break b u =>
      match m with
      | .flat =>
        let p := fmtGo w fuel (k + u.length) rest
        (u ++ p.1, p.2)
      | .broken =>
        let p := fmtGo w fuel i rest
        (b ++ "\n" ++ spaces i.toNat ++ p.1, p.2)
    | .Line =>
      let p := fmtGo w fuel i rest
      ("\n" ++ spaces i.toNat ++ p.1, p.2)
    | .Group x =>
      if fits (w - k) [(i, Mode.flat, x)] then fmtGo w fuel k ((i, Mode.flat, x) :: rest)
      else fmtGo w fuel k ((i, Mode.broken, x) :: rest)

/-- Rendering of a work list starting at column k. -/
def fmtSt (w k : Int) (l : List (Int × Mode × Document)) : String × Int :=
  fmtGo w (docsSize l) k l

/-- Render a complete document to text at the given maximum width. -/
def format (limit : Int) (d : Document) : String :=
  (fmtSt limit 0 [(0, Mode.flat, d)]).1

/-- Split a character list into the groups separated by underscores. -/
def splitUnderscore : List Char → List (List Char)
  | [] => [[]]
  | c :: cs =>
    match splitUnderscore cs, decide (c = '_') with
    | r, true => [] :: r
    | [], false => [[c]]
    | g :: gs, false => (c :: g) :: gs

/-- Upper-case the first character of a word. -/
def capitalize : List Char → List Char
  | [] => []
  | c :: cs => c.toUpper :: cs

/-- Modelled from the spec: the heck crate's CamelCase conversion used
by the identifier mangler (section 4.5, to_camel_case in the source) —
split the source name on underscores, capitalise each part, join. -/
def toCamelCase (s : String) : String :=
  String.mk (((splitUnderscore s.data).map capitalize).flatten)

/-- Modelled from the spec: atom-case mangling of a constructor or
module name (to_snake_case in the source) — lower-case every letter,
inserting an underscore before an interior upper-case letter. -/
def toSnakeCase (s : String) : String :=
  s.data.foldl
    (fun acc c =>
      if c.isUpper then
        (if acc.isEmpty then acc else acc ++ "_") ++ String.mk [c.toLower]
      else acc ++ String.mk [c])
    ""

/-- A function parameter of the source AST, holding only a name. -/
structure Arg where
  name : String
deriving DecidableEq, Repr

/-- The closed enumeration of binary operators of the source AST. -/
inductive BinOp where
  | Pipe
  | Lt
  | LtEq
  | Eq
  | GtEq
  | Gt
  | AddInt
  | AddFloat
  | SubInt
  | SubFloat
  | MultInt
  | MultFloat
  | DivInt
  | DivFloat
deriving DecidableEq, Repr

/-- Modelled from the spec: the type AST (src/ast.rs); only its
constructor-argument count is ever consumed by the emitter. -/
inductive Typ where
  | Constructor (name : String) (args : List Typ)

/-- Source patterns (src/pattern.rs); the meta fields carry no
information and are dropped. -/
inductive Pattern where
  | Var (name : String)
  | Int (value : Int)
  | Float (value : String)
  | Atom (value : String)
  | String (value : String)
  | Tuple (elems : List Pattern)
  | Nil
  | Cons (head tail : Pattern)
  | Enum (name : String) (args : List Pattern)

mutual
/-- Source expressions (src/ast.rs).  Payload fields of the variants the
translator rejects with unimplemented! (Fun, Call, RecordCons,
RecordSelect, ModuleSelect) are never read and are dropped; float values
are carried as their printed form. -/
inductive Expr where
  | Int (value : Int)
  | Float (value : String)
  | Atom (value : String)
  | String (value : String)
  | Tuple (elems : List Expr)
  | Seq (first next : Expr)
  | Var (name : String) (scope : Scope)
  | Fun
  | Nil
  | Cons (head tail : Expr)
  | Call
  | Enum (name : String) (args : List Expr)
  | RecordNil
  | RecordCons
  | RecordSelect
  | ModuleSelect
  | Case (subject : Expr) (clauses : List Clause)
  | BinOp (name : BinOp) (left right : Expr)
  | Let (pat : Pattern) (value next : Expr)

/-- Scope tag of a variable reference. -/
inductive Scope where
  | Local
  | Module
  | Constant (value : Expr)

/-- One pattern/body pair of a case expression. -/
inductive Clause where
  | mk (pat : Pattern) (body : Expr)
end

/-- Top-level statements (src/ast.rs). -/
inductive Statement where
  | Test (name : String) (body : Expr)
  | Enum (public : Bool) (name : String) (args : List String) (constructors : List Typ)
  | Import (module : String)
  | ExternalType (public : Bool) (name : String)
  | Fun (public : Bool) (name : String) (args : List Arg) (body : Expr)
  | ExternalFun (public : Bool) (name : String) (module fn : String)
      (args : List Typ) (retrn : Typ)

/-- A module: a name and an ordered sequence of statements. -/
structure Module where
  name : String
  statements : List Statement

/-- The indentation width used by every translator (erl.rs INDENT). -/
def INDENT : Int := 4

/-- Atom rendering (erl.rs fn atom): the value surrounded by single
quotes, contents unescaped. -/
def atom (value : String) : Document :=
  (Document.Text value).surround (Document.Text "'") (Document.Text "'")

/-- String rendering (erl.rs fn string): the value as a binary literal,
contents unescaped. -/
def string (value : String) : Document :=
  (Document.Text value).surround (Document.Text "<<\"") (Document.Text "\">>")

/-- Tuple rendering (erl.rs fn tuple) applied to already-translated
element documents: comma-delimited, indented at the current column,
surrounded by braces, grouped. -/
def tupleDoc (elems : List Document) : Document :=
  ((docConcat (elems.intersperse (delim ","))).nestCurrent.surround
    (Document.Text "\x7b") (Document.Text "\x7d")).group

/-- Cons-pair rendering (erl.rs fn cons) applied to already-translated
head and tail documents. -/
def consDoc (head tail : Document) : Document :=
  ((head.append (Document.Text " | ")).append tail).surround
    (Document.Text "[") (Document.Text "]")

/-- Tagged-tuple encoding of a sum-type constructor (erl.rs fn enum_)
applied to the translated atom for the snake-cased constructor name and
the already-translated arguments: a bare atom at arity zero, otherwise
a tuple with the atom inserted in front. -/
def enumDoc (atomDoc : Document) (args : List Document) : Document :=
  if args.isEmpty then atomDoc else tupleDoc (atomDoc :: args)

/-- The binary-operator token mapping (the match table of erl.rs
fn bin_op). -/
def binOpToken : BinOp → String
  | .Pipe => "|>"
  | .Lt => "<"
  | .LtEq => "=<"
  | .Eq => "=:="
  | .GtEq => ">="
  | .Gt => ">"
  | .AddInt => "+"
  | .AddFloat => "+"
  | .SubInt => "-"
  | .SubFloat => "-"
  | .MultInt => "*"
  | .MultFloat => "*"
  | .DivInt => "div"
  | .DivFloat => "/"

/-- Sequence rendering (erl.rs fn seq) applied to translated parts. -/
def seqDoc (first next : Document) : Document :=
  ((first.append (Document.Text ",")).append Document.Line).append next

/-- Binary-operator rendering (erl.rs fn bin_op) applied to translated
operands. -/
def binOpDoc (name : BinOp) (left right : Document) : Document :=
  (((left.append (break_ "" " ")).append (Document.Text (binOpToken name))).append
    (Document.Text " ")).append right

mutual
/-- The pattern translator (erl.rs fn pattern) with its list recursion
made explicit.  It is total: every pattern variant is supported. -/
def pattern : Pattern → Document
  | .Var name => Document.Text (toCamelCase name)
  | .Int value => Document.Text (toString value)
  | .Float value => Document.Text value
  | .Atom value => atom value
  | .String value => string value
  | .Tuple elems => tupleDoc (patternList elems)
  | .Nil => Document.Text "[]"
  | .Cons head tail => consDoc (pattern head) (pattern tail)
  | .Enum name args => enumDoc (atom (toSnakeCase name)) (patternList args)

def patternList : List Pattern → List Document
  | [] => []
  | p :: ps => pattern p :: patternList ps
end

/-- Let rendering (erl.rs fn let_) applied to the translated value and
continuation. -/
def letDoc (p : Pattern) (value next : Document) : Document :=
  ((((((pattern p).append (Document.Text " =")).append (break_ "" " ")).append
    (value.nest INDENT)).append (Document.Text ",")).append Document.Line).append next

/-- Clause rendering (erl.rs fn clause) applied to the translated
body. -/
def clauseDocOf (p : Pattern) (body : Document) : Document :=
  (((pattern p).append (Document.Text " ->")).append (break_ "" " ")).append
    ((body.nest INDENT).group)

/-- The separator between case clauses (erl.rs fn clauses). -/
def clauseSep : Document :=
  ((Document.Text ";").append Document.Line).append (break_ "\n" "")

/-- Case rendering (erl.rs fn case) applied to the translated subject
and clause documents. -/
def caseDoc (subject : Document) (clauses : List Document) : Document :=
  ((((Document.Text "case ").append subject.group).append (Document.Text " of")).append
    ((Document.Line.append (docConcat (clauses.intersperse clauseSep))).nest
      INDENT)).append (Document.Line.append (Document.Text "end"))

mutual
/-- The expression translator (erl.rs fn expr) together with fn var and
its list recursions; none embeds the unimplemented! panics. -/
def expr : Expr → Option Document
  | .Int value => some (Document.Text (toString value))
  | .Float value => some (Document.Text value)
  | .Atom value => some (atom value)
  | .String value => some (string value)
  | .Tuple elems => (exprList elems).map tupleDoc
  | .Seq first next =>
    (expr first).bind fun fd => (expr next).map fun nd => seqDoc fd nd
  | .Var name scope => var name scope
  | .Fun => none
  | .Nil => some (Document.Text "[]")
  | .Cons _ _ => none
  | .Call => none
  | .Enum name args =>
    (exprList args).map fun ds => enumDoc (atom (toSnakeCase name)) ds
  | .RecordNil => some (Document.Text "#{}")
  | .RecordCons => none
  | .RecordSelect => none
  | .ModuleSelect => none
  | .Case subject clauses =>
    (expr subject).bind fun sd => (clausesDocs clauses).map fun cds => caseDoc sd cds
  | .BinOp name left right =>
    (expr left).bind fun ld => (expr right).map fun rd => binOpDoc name ld rd
  | .Let p value next =>
    (expr value).bind fun vd => (expr next).map fun nd => letDoc p vd nd

/-- Variable-reference translation (erl.rs fn var): local variables are
mangled to variable case, module scope is unsupported, constant scope
substitutes the held value. -/
def var : String → Scope → Option Document
  | name, .Local => some (Document.Text (toCamelCase name))
  | _, .Module => none
  | _, .Constant value => expr value

def exprList : List Expr → Option (List Document)
  | [] => some []
  | e :: es => (expr e).bind fun d => (exprList es).map fun ds => d :: ds

def clauseDoc : Clause → Option Document
  | .mk p body => (expr body).map fun bd => clauseDocOf p bd

def clausesDocs : List Clause → Option (List Document)
  | [] => some []
  | c :: cs => (clauseDoc c).bind fun d => (clausesDocs cs).map fun ds => d :: ds
end

/-- Export-declaration generation (erl.rs fn export): an export line
followed by a line break when public, the empty document otherwise. -/
def export_ (public : Bool) (name : String) (arity : Nat) : Document :=
  if public then
    (Document.Text ("-export([" ++ name ++ "/" ++ toString arity ++ "]).")).append
      Document.Line
  else Document.Nil

/-- The argument-list document of a function head (the args_doc local
of erl.rs fn mod_fun). -/
def argsDocOf (args : List Arg) : Document :=
  ((docConcat
      ((args.map fun a => Document.Text (toCamelCase a.name)).intersperse
        (delim ","))).nestCurrent.surround
    (Document.Text "(") (Document.Text ")")).group

/-- Function-statement rendering (erl.rs fn mod_fun). -/
def mod_fun (public : Bool) (name : String) (args : List Arg) (body : Expr) :
    Option Document :=
  (expr body).map fun bodyDoc =>
    export_ public name args.length
      |>.append Document.Line
      |>.append (Document.Text name)
      |>.append (argsDocOf args)
      |>.append (Document.Text " ->")
      |>.append ((Document.Line.append bodyDoc).nest INDENT)
      |>.append (Document.Text ".")
      |>.append Document.Line

/-- Test-statement rendering (erl.rs fn test). -/
def test (name : String) (body : Expr) : Option Document :=
  (expr body).map fun bodyDoc =>
    Document.Line
      |>.append (Document.Text "-ifdef(TEST).")
      |>.append Document.Line
      |>.append (Document.Text name)
      |>.append (Document.Text "_test() ->")
      |>.append ((Document.Line.append bodyDoc).nest INDENT)
      |>.append (Document.Text ".")
      |>.append Document.Line
      |>.append (Document.Text "-endif.")
      |>.append Document.Line

/-- The synthetic parameter characters of a foreign-function wrapper
(the chars local of erl.rs fn external_fun): character codes starting
at 65, truncated to a byte as the Rust cast does. -/
def externalFunChars (arity : Nat) : List Char :=
  (List.range arity).map fun i => Char.ofNat ((65 + i) % 256)

/-- The comma-joined synthetic parameter list of a foreign-function
wrapper. -/
def externalFunParams (arity : Nat) : String :=
  String.join (((externalFunChars arity).map fun c => String.mk [c]).intersperse ", ")

/-- Foreign-function wrapper rendering (erl.rs fn external_fun). -/
def external_fun (public : Bool) (name module fn : String) (arity : Nat) :
    Document :=
  Document.Line
    |>.append (export_ public name arity)
    |>.append (Document.Text (name ++ "(" ++ externalFunParams arity ++ ") ->"))
    |>.append
      ((Document.Line.append
        (Document.Text (module ++ ":" ++ fn ++ "(" ++ externalFunParams arity ++ ").")))
          |>.nest INDENT)
    |>.append Document.Line

/-- Statement dispatch (erl.rs fn statement): type definitions, imports
and external types are erased to the empty document. -/
def statement : Statement → Option Document
  | .Test name body => test name body
  | .Enum _ _ _ _ => some Document.Nil
  | .Import _ => some Document.Nil
  | .ExternalType _ _ => some Document.Nil
  | .Fun public name args body => mod_fun public name args body
  | .ExternalFun public name module fn args _ =>
    some (external_fun public name module fn args.length)

def statementsDocs : List Statement → Option (List Document)
  | [] => some []
  | s :: ss => (statement s).bind fun d => (statementsDocs ss).map fun ds => d :: ds

/-- The module emitter (erl.rs fn module): header line, line break, the
statements' documents in order, rendered at width 80. -/
def module (m : Module) : Option String :=
  (statementsDocs m.statements).map fun docs =>
    format 80
      (((Document.Text ("-module(" ++ m.name ++ ").")).append Document.Line).append
        (docConcat docs))

/-- The statement kinds the emitter erases: type definitions, imports
and external types. -/
def erased : Statement → Bool
  | .Enum _ _ _ _ => true
  | .Import _ => true
  | .ExternalType _ _ => true
  | _ => false

/-- A document together with a version of it with some Nil
concatenation components removed. -/
inductive NilEq : Document → Document → Prop
  | refl (d : Document) : NilEq d d
  | cons {a a' b b' : Document} :
      NilEq a a' → NilEq b b' → NilEq (Document.Cons a b) (Document.Cons a' b')
  | dropNil {b b' : Document} :
      NilEq b b' → NilEq (Document.Cons Document.Nil b) b'

/-- Pointwise lifting of NilEq to renderer work lists. -/
inductive REq : List (Int × Mode × Document) → List (Int × Mode × Document) → Prop
  | nil : REq [] []
  | cons {d d' : Document} {l l' : List (Int × Mode × Document)} (i : Int) (m : Mode) :
      NilEq d d' → REq l l' → REq ((i, m, d) :: l) ((i, m, d') :: l')

/-- The document of a function definition with its export prefix
abstracted out: everything of mod_fun other than the export document
itself, independent of the visibility flag. -/
def fun_defn (exportDoc : Document) (name : String) (args : List Arg)
    (bodyDoc : Document) : Document :=
  exportDoc
    |>.append Document.Line
    |>.append (Document.Text name)
    |>.append (argsDocOf args)
    |>.append (Document.Text " ->")
    |>.append ((Document.Line.append bodyDoc).nest INDENT)
    |>.append (Document.Text ".")
    |>.append Document.Line

/-- The document of a foreign-function wrapper with its export document
abstracted out: everything of external_fun other than the export
document itself, independent of the visibility flag. -/
def external_defn (exportDoc : Document) (name module fn : String)
    (arity : Nat) : Document :=
  Document.Line
    |>.append exportDoc
    |>.append (Document.Text (name ++ "(" ++ externalFunParams arity ++ ") ->"))
    |>.append
      ((Document.Line.append
        (Document.Text (module ++ ":" ++ fn ++ "(" ++ externalFunParams arity ++ ").")))
          |>.nest INDENT)
    |>.append Document.Line

theorem Document.size_pos (d : Document) : 0 < d.size := by
  cases d <;> simp [Document.size]

/-!  Step equations of the renderer.  With the exact-fuel discipline the
fuel at every recursive call is the docsSize of its work list, so each
one-step unfolding of fmtSt is provable with at most a fuel rewrite. -/

theorem docsSize_cons (i : Int) (m : Mode) (d : Document)
    (rest : List (Int × Mode × Document)) :
    docsSize ((i, m, d) :: rest) = docsSize rest + d.size := rfl

theorem fmtSt_nil (w k : Int) : fmtSt w k [] = ("", k) := rfl

theorem fmtSt_cons_Nil (w k i : Int) (m : Mode)
    (rest : List (Int × Mode × Document)) :
    fmtSt w k ((i, m, Document.Nil) :: rest) = fmtSt w k rest := rfl

theorem fmtSt_cons_Text (w k i : Int) (m : Mode) (s : String)
    (rest : List (Int × Mode × Document)) :
    fmtSt w k ((i, m, Document.Text s) :: rest) =
      ((s ++ (fmtSt w (k + s.length) rest).1, (fmtSt w (k + s.length) rest).2)) := rfl

theorem fmtSt_cons_Cons (w k i : Int) (m : Mode) (a b : Document)
    (rest : List (Int × Mode × Document)) :
    fmtSt w k ((i, m, Document.Cons a b) :: rest) =
      fmtSt w k ((i, m, a) :: (i, m, b) :: rest) := by
  show fmtGo w (docsSize rest + (a.size + b.size)) k ((i, m, a) :: (i, m, b) :: rest) =
    fmtGo w (docsSize rest + b.size + a.size) k ((i, m, a) :: (i, m, b) :: rest)
  have h : docsSize rest + (a.size + b.size) = docsSize rest + b.size + a.size := by
    omega
  rw [h]

theorem fmtSt_cons_Nest (w k i : Int) (m : Mode) (j : Int) (x : Document)
    (rest : List (Int × Mode × Document)) :
    fmtSt w k ((i, m, Document.Nest j x) :: rest) =
      fmtSt w k ((i + j, m, x) :: rest) := rfl

theorem fmtSt_cons_NestCurrent (w k i : Int) (m : Mode) (x : Document)
    (rest : List (Int × Mode × Document)) :
    fmtSt w k ((i, m, Document.NestCurrent x) :: rest) =
      fmtSt w k ((k, m, x) :: rest) := rfl

theorem fmtSt_cons_Break_flat (w k i : Int) (b u : String)
    (rest : List (Int × Mode × Document)) :
    fmtSt w k ((i, Mode.flat, Document.Break b u) :: rest) =
      ((u ++ (fmtSt w (k + u.length) rest).1, (fmtSt w (k + u.length) rest).2)) := rfl

theorem fmtSt_cons_Break_broken (w k i : Int) (b u : String)
    (rest : List (Int × Mode × Document)) :
    fmtSt w k ((i, Mode.broken, Document.Break b u) :: rest) =
      ((b ++ "\n" ++ spaces i.toNat ++ (fmtSt w i rest).1, (fmtSt w i rest).2)) := rfl

theorem fmtSt_cons_Line (w k i : Int) (m : Mode)
    (rest : List (Int × Mode × Document)) :
    fmtSt w k ((i, m, Document.Line) :: rest) =
      (("\n" ++ spaces i.toNat ++ (fmtSt w i rest).1, (fmtSt w i rest).2)) := by
  cases m <;> rfl

theorem fmtSt_cons_Group (w k i : Int) (m : Mode) (x : Document)
    (rest : List (Int × Mode × Document)) :
    fmtSt w k ((i, m, Document.Group x) :: rest) =
      (if fits (w - k) [(i, Mode.flat, x)] then fmtSt w k ((i, Mode.flat, x) :: rest)
       else fmtSt w k ((i, Mode.broken, x) :: rest)) := by
  show (if fits (w - k) [(i, Mode.flat, x)] then
          fmtGo w (docsSize rest + x.size) k ((i, Mode.flat, x) :: rest)
        else fmtGo w (docsSize rest + x.size) k ((i, Mode.broken, x) :: rest)) = _
  split <;> rfl

/-- The renderer is invariant under dropping Nil concatenation
components anywhere in its work list. -/
theorem fmtSt_req (w : Int) :
    ∀ n l l' k, docsSize l ≤ n → REq l l' → fmtSt w k l = fmtSt w k l' := by
  intro n
  induction n using Nat.strong_induction_on with
  | _ n IH =>
    intro l l' k hsize hreq
    cases hreq with
    | nil => rfl
    | @cons d d' l0 l0' i m hd hrest =>
      cases hd with
      | refl d =>
        cases d with
        | Nil =>
          rw [fmtSt_cons_Nil, fmtSt_cons_Nil]
          exact IH (n - 1)
            (by simp [docsSize_cons, Document.size] at hsize ⊢; omega)
            l0 l0' k (by simp [docsSize_cons, Document.size] at hsize ⊢; omega) hrest
        | Text s =>
          rw [fmtSt_cons_Text, fmtSt_cons_Text]
          have := IH (n - 1)
            (by simp [docsSize_cons, Document.size] at hsize ⊢; omega)
            l0 l0' (k + s.length)
            (by simp [docsSize_cons, Document.size] at hsize ⊢; omega) hrest
          rw [this]
        | Cons a b =>
          rw [fmtSt_cons_Cons, fmtSt_cons_Cons]
          exact IH (n - 1)
            (by simp [docsSize_cons, Document.size] at hsize ⊢; omega)
            _ _ k
            (by simp [docsSize_cons, Document.size] at hsize ⊢; omega)
            (REq.cons i m (NilEq.refl a) (REq.cons i m (NilEq.refl b) hrest))
        | Nest j x =>
          rw [fmtSt_cons_Nest, fmtSt_cons_Nest]
          exact IH (n - 1)
            (by simp [docsSize_cons, Document.size] at hsize ⊢; omega)
            _ _ k
            (by simp [docsSize_cons, Document.size] at hsize ⊢; omega)
            (REq.cons (i + j) m (NilEq.refl x) hrest)
        | NestCurrent x =>
          rw [fmtSt_cons_NestCurrent, fmtSt_cons_NestCurrent]
          exact IH (n - 1)
            (by simp [docsSize_cons, Document.size] at hsize ⊢; omega)
            _ _ k
            (by simp [docsSize_cons, Document.size] at hsize ⊢; omega)
            (REq.cons k m (NilEq.refl x) hrest)
        | Break b u =>
          cases m with
          | flat =>
            rw [fmtSt_cons_Break_flat, fmtSt_cons_Break_flat]
            have := IH (n - 1)
              (by simp [docsSize_cons, Document.size] at hsize ⊢; omega)
              l0 l0' (k + u.length)
              (by simp [docsSize_cons, Document.size] at hsize ⊢; omega) hrest
            rw [this]
          | broken =>
            rw [fmtSt_cons_Break_broken, fmtSt_cons_Break_broken]
            have := IH (n - 1)
              (by simp [docsSize_cons, Document.size] at hsize ⊢; omega)
              l0 l0' i
              (by simp [docsSize_cons, Document.size] at hsize ⊢; omega) hrest
            rw [this]
        | Line =>
          rw [fmtSt_cons_Line, fmtSt_cons_Line]
          have := IH (n - 1)
            (by simp [docsSize_cons, Document.size] at hsize ⊢; omega)
            l0 l0' i
            (by simp [docsSize_cons, Document.size] at hsize ⊢; omega) hrest
          rw [this]
        | Group x =>
          rw [fmtSt_cons_Group, fmtSt_cons_Group]
          split
          · exact IH (n - 1)
              (by simp [docsSize_cons, Document.size] at hsize ⊢; omega)
              _ _ k
              (by simp [docsSize_cons, Document.size] at hsize ⊢; omega)
              (REq.cons i Mode.flat (NilEq.refl x) hrest)
          · exact IH (n - 1)
              (by simp [docsSize_cons, Document.size] at hsize ⊢; omega)
              _ _ k
              (by simp [docsSize_cons, Document.size] at hsize ⊢; omega)
              (REq.cons i Mode.broken (NilEq.refl x) hrest)
      | @cons a a' b b' ha hb =>
        rw [fmtSt_cons_Cons, fmtSt_cons_Cons]
        exact IH (n - 1)
          (by
            simp [docsSize_cons, Document.size] at hsize ⊢
            have := Document.size_pos a; have := Document.size_pos b
            omega)
          _ _ k
          (by simp [docsSize_cons, Document.size] at hsize ⊢; omega)
          (REq.cons i m ha (REq.cons i m hb hrest))
      | @dropNil b b' hb =>
        rw [fmtSt_cons_Cons, fmtSt_cons_Nil]
        exact IH (n - 1)
          (by
            simp [docsSize_cons, Document.size] at hsize ⊢
            have := Document.size_pos b
            omega)
          _ _ k
          (by simp [docsSize_cons, Document.size] at hsize ⊢; omega)
          (REq.cons i m hb hrest)

/-- Rendering is invariant under dropping Nil concatenation
components of the rendered document. -/
theorem format_nilEq {d d' : Document} (limit : Int) (h : NilEq d d') :
    format limit d = format limit d' := by
  unfold format
  rw [fmtSt_req limit (docsSize [((0 : Int), Mode.flat, d)]) _ _ 0 le_rfl
    (REq.cons 0 Mode.flat h REq.nil)]

theorem statement_of_erased {s : Statement} (h : erased s = true) :
    statement s = some Document.Nil := by
  cases s <;> simp [erased] at h <;> rfl

theorem statementsDocs_filter_erased :
    ∀ ss : List Statement,
      (statementsDocs ss = none →
        statementsDocs (ss.filter fun s => !erased s) = none) ∧
      (∀ ds, statementsDocs ss = some ds →
        ∃ ds', statementsDocs (ss.filter fun s => !erased s) = some ds' ∧
          NilEq (docConcat ds) (docConcat ds')) := by
  intro ss
  induction ss with
  | nil =>
    constructor
    · intro h; simp [statementsDocs] at h
    · intro ds h
      simp [statementsDocs] at h
      exact ⟨[], by simp [statementsDocs], h ▸ NilEq.refl _⟩
  | cons s ss ih =>
    by_cases hs : erased s = true
    · have hstmt := statement_of_erased hs
      constructor
      · intro h
        simp [statementsDocs, hstmt] at h
        simp [List.filter, hs]
        exact ih.1 (by cases h' : statementsDocs ss with
          | none => rfl
          | some ds => simp [h'] at h)
      · intro ds h
        simp [statementsDocs, hstmt] at h
        obtain ⟨ds0, hds0, rfl⟩ := h
        obtain ⟨ds', hds', hnil⟩ := ih.2 ds0 hds0
        refine ⟨ds', by simp [List.filter, hs, hds'], ?_⟩
        exact NilEq.dropNil hnil
    · have hs' : erased s = false := by simp at hs; exact hs
      constructor
      · intro h
        simp [List.filter, hs']
        cases h' : statement s with
        | none => simp [statementsDocs, h']
        | some d =>
          simp [statementsDocs, h'] at h
          cases h'' : statementsDocs ss with
          | none => simp [statementsDocs, h', ih.1 h'']
          | some ds0 => simp [h''] at h
      · intro ds h
        cases h' : statement s with
        | none => simp [statementsDocs, h'] at h
        | some d =>
          simp [statementsDocs, h'] at h
          obtain ⟨ds0, hds0, rfl⟩ := h
          obtain ⟨ds', hds', hnil⟩ := ih.2 ds0 hds0
          refine ⟨d :: ds', by simp [List.filter, hs', statementsDocs, h', hds'], ?_⟩
          exact NilEq.cons (NilEq.refl d) hnil

/-- Removing every erased statement from a module does not change its
rendering (nor whether translation succeeds). -/
theorem module_filter_erased (m : Module) :
    module m = module ⟨m.name, m.statements.filter fun s => !erased s⟩ := by
  unfold module
  cases h : statementsDocs m.statements with
  | none =>
    rw [(statementsDocs_filter_erased m.statements).1 h]
  | some ds =>
    obtain ⟨ds', hds', hnil⟩ := (statementsDocs_filter_erased m.statements).2 ds h
    rw [hds']
    simp only [Option.map_some]
    exact congrArg some (format_nilEq 80 (NilEq.cons (NilEq.refl _) hnil))

theorem patternList_length (ps : List Pattern) :
    (patternList ps).length = ps.length := by
  induction ps with
  | nil => rfl
  | cons p ps ih => simp [patternList, ih]

theorem exprList_length :
    ∀ (es : List Expr) (ds : List Document), exprList es = some ds →
      ds.length = es.length := by
  intro es
  induction es with
  | nil => intro ds h; simp [exprList] at h; simp [← h]
  | cons e es ih =>
    intro ds h
    cases he : expr e with
    | none => simp [exprList, he] at h
    | some d =>
      cases hes : exprList es with
      | none => simp [exprList, he, hes] at h
      | some ds0 =>
        simp [exprList, he, hes] at h
        subst h
        simp [ih ds0 hes]

theorem statementsDocs_append_none (l1 : List Statement) (s : Statement)
    (l2 : List Statement) (hs : statement s = none) :
    statementsDocs (l1 ++ s :: l2) = none := by
  induction l1 with
  | nil => simp [statementsDocs, hs]
  | cons t l1 ih =>
    cases ht : statement t with
    | none => simp [statementsDocs, ht]
    | some d => simp [statementsDocs, ht, ih]

set_option maxRecDepth 10000

/-- C1: for the Module named term whose statements are exactly one
Function with public = false, name "atom", no arguments, and body the
atom literal ok, the module emitter returns exactly the string
"-module(term).\n\natom() ->\n    'ok'.\n". -/
theorem C1_end_to_end :
    module ⟨"term", [Statement.Fun false "atom" [] (Expr.Atom "ok")]⟩ =
      some "-module(term).\n\natom() ->\n    'ok'.\n" := rfl

/-- C2: the Expression Translator and the Pattern Translator encode a
sum-type constructor identically: both spell the atom as the snake case
of the constructor name, render it bare at arity zero, and otherwise
render a tuple of that atom followed by the translated arguments in
order, so atom spelling and arity always agree. -/
theorem C2_tagged_tuple_symmetry :
    ∀ (name : String) (eargs : List Expr) (pargs : List Pattern),
      pattern (Pattern.Enum name pargs) =
        (if pargs.isEmpty then atom (toSnakeCase name)
         else tupleDoc (atom (toSnakeCase name) :: patternList pargs)) ∧
      expr (Expr.Enum name eargs) =
        (exprList eargs).map (fun ds =>
          if eargs.isEmpty then atom (toSnakeCase name)
          else tupleDoc (atom (toSnakeCase name) :: ds)) ∧
      (patternList pargs).length = pargs.length ∧
      (exprList eargs).map (fun ds => ds.length) =
        (exprList eargs).map (fun _ => eargs.length) := by
  intro name eargs pargs
  refine ⟨?_, ?_, patternList_length pargs, ?_⟩
  · cases pargs with
    | nil => simp [pattern, patternList, enumDoc]
    | cons p ps => simp [pattern, patternList, enumDoc]
  · cases eargs with
    | nil => simp [expr, exprList, enumDoc]
    | cons e es =>
      cases he : expr e with
      | none => simp [expr, exprList, he]
      | some d =>
        cases hes : exprList es with
        | none => simp [expr, exprList, he, hes]
        | some ds => simp [expr, exprList, he, hes, enumDoc]
  · cases h : exprList eargs with
    | none => rfl
    | some ds => simp [exprList_length eargs ds h]

/-- C3: TypeDefinition (Enum), Import and ExternalType statements each
contribute exactly the empty document, and the rendered module is
identical to the rendering of the same module with those statements
removed, regardless of their position or count. -/
theorem C3_erasure :
    (∀ (p : Bool) (n : String) (a : List String) (c : List Typ),
      statement (Statement.Enum p n a c) = some Document.Nil) ∧
    (∀ mo : String, statement (Statement.Import mo) = some Document.Nil) ∧
    (∀ (p : Bool) (n : String),
      statement (Statement.ExternalType p n) = some Document.Nil) ∧
    (∀ m : Module,
      module m = module ⟨m.name, m.statements.filter fun s => !erased s⟩) :=
  ⟨fun _ _ _ _ => rfl, fun _ => rfl, fun _ _ => rfl, module_filter_erased⟩

/-- C4: the export generator emits exactly the line
-export([name/arity]). followed by a line break when public and nothing
when private; both mod_fun and external_fun place that export document
(built from their own name and argument count) immediately before the
rest of their definition, which does not depend on the flag. -/
theorem C4_visibility :
    ∀ (public : Bool) (name : String) (arity : Nat) (args : List Arg)
      (body : Expr) (mo fn : String) (tyargs : List Typ) (r : Typ),
      export_ true name arity =
        (Document.Text ("-export([" ++ name ++ "/" ++ toString arity ++ "]).")).append
          Document.Line ∧
      export_ false name arity = Document.Nil ∧
      mod_fun public name args body =
        (expr body).map (fun_defn (export_ public name args.length) name args) ∧
      statement (Statement.Fun public name args body) = mod_fun public name args body ∧
      external_fun public name mo fn arity =
        external_defn (export_ public name arity) name mo fn arity ∧
      statement (Statement.ExternalFun public name mo fn tyargs r) =
        some (external_fun public name mo fn tyargs.length) :=
  fun _ _ _ _ _ _ _ _ _ => ⟨rfl, rfl, rfl, rfl, rfl, rfl⟩

/-- C5 counterexample: translating the cons-pair expression
[1 | []] does not produce a bracketed cons document — the expression
translator aborts (returns none) on every Expr.Cons. -/
theorem C5_counterexample :
    expr (Expr.Cons (Expr.Int 1) Expr.Nil) = none ∧
    expr (Expr.Cons (Expr.Int 1) Expr.Nil) ≠
      some (consDoc (Document.Text "1") (Document.Text "[]")) :=
  ⟨rfl, by decide⟩

/-- C5 (amended): the empty-list expression and pattern render as [],
and the Pattern Translator renders a non-empty cons pair as
[head | tail] without flattening nested chains; a non-empty cons-pair
expression is unsupported and aborts translation. -/
theorem C5_cons_rendering :
    (∀ h t : Pattern, pattern (Pattern.Cons h t) = consDoc (pattern h) (pattern t)) ∧
    (∀ h t : Document, consDoc h t =
      ((h.append (Document.Text " | ")).append t).surround
        (Document.Text "[") (Document.Text "]")) ∧
    expr Expr.Nil = some (Document.Text "[]") ∧
    pattern Pattern.Nil = Document.Text "[]" ∧
    (∀ h t : Expr, expr (Expr.Cons h t) = none) ∧
    format 80 (pattern (Pattern.Cons (Pattern.Int 1)
      (Pattern.Cons (Pattern.Int 2) Pattern.Nil))) = "[1 | [2 | []]]" :=
  ⟨fun _ _ => rfl, fun _ _ => rfl, rfl, rfl, fun _ _ => rfl, by rfl⟩

/-- C6: module-scoped variable references, first-class function
literals, calls, record extension and selection, and module member
access all abort translation (none), and a module containing a function
whose body fails to translate produces no output string at all. -/
theorem C6_unsupported_aborts :
    (∀ name : String, var name Scope.Module = none) ∧
    (∀ name : String, expr (Expr.Var name Scope.Module) = none) ∧
    expr Expr.Fun = none ∧
    expr Expr.Call = none ∧
    expr Expr.RecordCons = none ∧
    expr Expr.RecordSelect = none ∧
    expr Expr.ModuleSelect = none ∧
    (∀ (mn : String) (s1 s2 : List Statement) (public : Bool) (fname : String)
      (args : List Arg) (body : Expr), expr body = none →
      module ⟨mn, s1 ++ Statement.Fun public fname args body :: s2⟩ = none) := by
  refine ⟨fun _ => rfl, fun _ => rfl, rfl, rfl, rfl, rfl, rfl, ?_⟩
  intro mn s1 s2 public fname args body hbody
  unfold module
  rw [statementsDocs_append_none s1 _ s2 (by simp [statement, mod_fun, hbody])]
  rfl

/-- C6 witness: a module whose single function body is a first-class
function literal translates to none. -/
theorem C6_witness :
    expr Expr.Fun = none ∧
    module ⟨"m", [Statement.Fun false "f" [] Expr.Fun]⟩ = none :=
  ⟨rfl, C6_unsupported_aborts.2.2.2.2.2.2.2 "m" [] [] false "f" [] Expr.Fun rfl⟩

/-- C7: a variable reference carrying Scope.Constant renders exactly as
the held value expression, for every name and value — the variable's
own name never reaches the output; in particular a Var named some_arg
holding Atom "hello" renders as the atom document, which prints
'hello'. -/
theorem C7_constant_substitution :
    (∀ (name : String) (value : Expr), var name (Scope.Constant value) = expr value) ∧
    (∀ (name : String) (value : Expr),
      expr (Expr.Var name (Scope.Constant value)) = expr value) ∧
    expr (Expr.Var "some_arg" (Scope.Constant (Expr.Atom "hello"))) =
      some (atom "hello") ∧
    format 80 (atom "hello") = "'hello'" :=
  ⟨fun _ _ => rfl, fun _ _ => rfl, rfl, by rfl⟩

/-- C8: the binary-operator mapping sends each operator to exactly one
token; integer and float addition share a token, integer and float
subtraction share a token, and the two division tokens differ. -/
theorem C8_binop_mapping :
    binOpToken BinOp.Pipe = "|>" ∧ binOpToken BinOp.Lt = "<" ∧
    binOpToken BinOp.LtEq = "=<" ∧ binOpToken BinOp.Eq = "=:=" ∧
    binOpToken BinOp.GtEq = ">=" ∧ binOpToken BinOp.Gt = ">" ∧
    binOpToken BinOp.AddInt = "+" ∧ binOpToken BinOp.AddFloat = "+" ∧
    binOpToken BinOp.SubInt = "-" ∧ binOpToken BinOp.SubFloat = "-" ∧
    binOpToken BinOp.MultInt = "*" ∧ binOpToken BinOp.MultFloat = "*" ∧
    binOpToken BinOp.DivInt = "div" ∧ binOpToken BinOp.DivFloat = "/" ∧
    binOpToken BinOp.AddInt = binOpToken BinOp.AddFloat ∧
    binOpToken BinOp.SubInt = binOpToken BinOp.SubFloat ∧
    binOpToken BinOp.DivInt ≠ binOpToken BinOp.DivFloat := by decide

/-- C9 counterexample: at arity 27 the synthetic parameter names of a
foreign-function wrapper are not all alphabet letters — the 27th is the
character after Z, namely the bracket at code 91. -/
theorem C9_counterexample :
    externalFunChars 27 = "ABCDEFGHIJKLMNOPQRSTUVWXYZ[".data ∧
    externalFunParams 27 =
      "A, B, C, D, E, F, G, H, I, J, K, L, M, N, O, P, Q, R, S, T, U, V, W, X, Y, Z, [" ∧
    ('[').isAlpha = false := by decide

/-- C9 (amended): the wrapper always has exactly arity synthetic
parameter names, which are the characters with sequential codes
starting at letter A (all alphabet letters when arity is at most 26);
the body is the direct foreign call on exactly the same comma-joined
parameter list, and only the argument count of an ExternalFun statement
is consumed, never the argument or return types. -/
theorem C9_external_wrapper :
    ∀ (public : Bool) (name mo fn : String) (arity : Nat),
      (externalFunChars arity).length = arity ∧
      (arity ≤ 26 →
        externalFunChars arity = (List.range arity).map fun i => Char.ofNat (65 + i)) ∧
      (arity ≤ 26 → ∀ c ∈ externalFunChars arity, c.isAlpha = true) ∧
      external_fun public name mo fn arity =
        external_defn (export_ public name arity) name mo fn arity ∧
      (∀ (tyargs tyargs' : List Typ) (r r' : Typ), tyargs.length = tyargs'.length →
        statement (Statement.ExternalFun public name mo fn tyargs r) =
          statement (Statement.ExternalFun public name mo fn tyargs' r')) := by
  intro public name mo fn arity
  refine ⟨by simp [externalFunChars], ?_, ?_, rfl, ?_⟩
  · intro h
    unfold externalFunChars
    apply List.map_congr_left
    intro i hi
    have hlt : i < arity := List.mem_range.mp hi
    rw [Nat.mod_eq_of_lt (by omega)]
  · intro h c hc
    unfold externalFunChars at hc
    simp only [List.mem_map, List.mem_range] at hc
    obtain ⟨i, hi, rfl⟩ := hc
    have h26 : i < 26 := by omega
    rw [Nat.mod_eq_of_lt (by omega)]
    interval_cases i <;> decide
  · intro tyargs tyargs' r r' hlen
    simp [statement, hlen]

/-- C9 witness: at arity 2 the parameters are the letters A and B. -/
theorem C9_witness :
    externalFunChars 2 = (List.range 2).map (fun i => Char.ofNat (65 + i)) ∧
    ('A').isAlpha = true :=
  ⟨(C9_external_wrapper false "f" "m" "g" 2).2.1 (by decide),
   ((C9_external_wrapper false "f" "m" "g" 2).2.2.1 (by decide)) 'A' (by decide)⟩

/-- C10: the tuple translator is total for every element count; with
zero elements both the expression and the pattern translator succeed
and produce the grouped brace pair, which renders exactly as the two
braces with nothing between them. -/
theorem C10_empty_tuple :
    (∀ elems : List Pattern,
      pattern (Pattern.Tuple elems) = tupleDoc (patternList elems)) ∧
    (∀ elems : List Expr,
      expr (Expr.Tuple elems) = (exprList elems).map tupleDoc) ∧
    pattern (Pattern.Tuple []) = tupleDoc [] ∧
    expr (Expr.Tuple []) = some (tupleDoc []) ∧
    tupleDoc [] =
      (((Document.Text "\x7b").append (Document.NestCurrent Document.Nil)).append
        (Document.Text "\x7d")).group ∧
    format 80 (tupleDoc []) = "\x7b\x7d" :=
  ⟨fun _ => rfl, fun _ => rfl, rfl, rfl, rfl, by rfl⟩

/-!  Validation of the modelled layout engine: the embedding reproduces
every expected output string of the test functions embedded in
src/gleam/src/erl.rs (module_test, expr_test, args_test, test_test,
var_test, cast_test). -/

theorem validates_module_test :
    module ⟨"magic",
      [Statement.ExternalType true "Any",
       Statement.Enum true "Any" [] [Typ.Constructor "Ok" []],
       Statement.Import "result",
       Statement.ExternalFun false "add_ints" "int" "add"
         [Typ.Constructor "Int" [], Typ.Constructor "Int" []]
         (Typ.Constructor "Int" []),
       Statement.ExternalFun true "map" "maps" "new" []
         (Typ.Constructor "Map" [])]⟩ =
      some "-module(magic).\n\nadd_ints(A, B) ->\n    int:add(A, B).\n\n-export([map/0]).\nmap() ->\n    maps:new().\n" := rfl

theorem validates_expr_test :
    module ⟨"term",
      [Statement.Fun false "atom" [] (Expr.Atom "ok"),
       Statement.Fun false "int" [] (Expr.Int 176),
       Statement.Fun false "float" [] (Expr.Float "11177.324401"),
       Statement.Fun false "nil" [] Expr.Nil,
       Statement.Fun false "record_nil" [] Expr.RecordNil,
       Statement.Fun false "tup" [] (Expr.Tuple [Expr.Int 1, Expr.Float "2.0"]),
       Statement.Fun false "string" [] (Expr.String "Hello there!"),
       Statement.Fun false "seq" [] (Expr.Seq (Expr.Int 1) (Expr.Int 2)),
       Statement.Fun false "bin_op" []
         (Expr.BinOp BinOp.AddInt (Expr.Int 1) (Expr.Int 2)),
       Statement.Fun false "enum1" [] (Expr.Enum "Nil" []),
       Statement.Fun false "enum2" []
         (Expr.Enum "Ok" [Expr.Int 1, Expr.Float "2.0"]),
       Statement.Fun false "let" []
         (Expr.Let (Pattern.Var "OneTwo") (Expr.Int 1)
           (Expr.Var "one_two" Scope.Local))]⟩ =
      some "-module(term).\n\natom() ->\n    'ok'.\n\nint() ->\n    176.\n\nfloat() ->\n    11177.324401.\n\nnil() ->\n    [].\n\nrecord_nil() ->\n    #\x7b\x7d.\n\ntup() ->\n    \x7b1, 2.0\x7d.\n\nstring() ->\n    <<\"Hello there!\">>.\n\nseq() ->\n    1,\n    2.\n\nbin_op() ->\n    1 + 2.\n\nenum1() ->\n    'nil'.\n\nenum2() ->\n    \x7b'ok', 1, 2.0\x7d.\n\nlet() ->\n    OneTwo = 1,\n    OneTwo.\n" := rfl

theorem validates_args_test :
    module ⟨"term",
      [Statement.Fun false "some_function"
        [⟨"arg_one"⟩, ⟨"arg_two"⟩, ⟨"arg_3"⟩, ⟨"arg4"⟩, ⟨"arg_four"⟩,
         ⟨"arg__five"⟩, ⟨"arg_six"⟩, ⟨"arg_that_is_long"⟩]
        (Expr.Atom "ok")]⟩ =
      some "-module(term).\n\nsome_function(ArgOne,\n              ArgTwo,\n              Arg3,\n              Arg4,\n              ArgFour,\n              ArgFive,\n              ArgSix,\n              ArgThatIsLong) ->\n    'ok'.\n" := rfl

theorem validates_test_test :
    module ⟨"term", [Statement.Test "bang" (Expr.Atom "ok")]⟩ =
      some "-module(term).\n\n-ifdef(TEST).\nbang_test() ->\n    'ok'.\n-endif.\n" := rfl

theorem validates_var_test :
    module ⟨"vars",
      [Statement.Fun false "arg" [] (Expr.Var "some_arg" Scope.Local),
       Statement.Fun false "some_arg" []
         (Expr.Var "some_arg" (Scope.Constant (Expr.Atom "hello")))]⟩ =
      some "-module(vars).\n\narg() ->\n    SomeArg.\n\nsome_arg() ->\n    'hello'.\n" := rfl

theorem validates_cast_test :
    module ⟨"my_mod",
      [Statement.Fun false "go" []
        (Expr.Case (Expr.Int 1)
          [Clause.mk (Pattern.Int 1) (Expr.Int 1),
           Clause.mk (Pattern.Float "1.0") (Expr.Int 1),
           Clause.mk (Pattern.Atom "ok") (Expr.Int 1),
           Clause.mk (Pattern.String "hello") (Expr.Int 1),
           Clause.mk (Pattern.Tuple [Pattern.Int 1, Pattern.Int 2]) (Expr.Int 1),
           Clause.mk Pattern.Nil (Expr.Int 1),
           Clause.mk (Pattern.Enum "Error" [Pattern.Int 2]) (Expr.Int 1),
           Clause.mk (Pattern.Cons (Pattern.Int 1) Pattern.Nil) (Expr.Int 1)])]⟩ =
      some "-module(my_mod).\n\ngo() ->\n    case 1 of\n        1 -> 1;\n        1.0 -> 1;\n        'ok' -> 1;\n        <<\"hello\">> -> 1;\n        \x7b1, 2\x7d -> 1;\n        [] -> 1;\n        \x7b'error', 2\x7d -> 1;\n        [1 | []] -> 1\n    end.\n" := rfl

end Erl
